import Mathlib

/-!
Verification of the expense-tracker CLI core (tracker/models.py,
tracker/storage.py, tracker/service.py) against its specification.

Python strings are modelled as `List Char` (code points); Python `float`
amounts are modelled as rationals `ℚ`; Python dicts holding expense fields
are modelled as a flat record with optional fields; the JSON store file is
modelled by the list of expense records it holds.  Character-level string
operations (`str.strip`, `str.lower`, `str.startswith`, lexicographic
comparison) are embedded at the level of ASCII code points, matching
CPython behaviour on ASCII data.
-/

namespace Tracker

/-- Python strings, modelled as lists of code points. -/
abbrev Str := List Char

/-- The ASCII whitespace characters removed by Python `str.strip()`:
space, tab, newline, carriage return, vertical tab, form feed. -/
def isPySpace (c : Char) : Bool :=
  decide (c.toNat = 32 ∨ c.toNat = 9 ∨ c.toNat = 10 ∨
    c.toNat = 13 ∨ c.toNat = 11 ∨ c.toNat = 12)

/-- Python `str.lower()` (ASCII range, via `Char.toLower`). -/
def pyLower (s : Str) : Str := s.map Char.toLower

/-- Python `str.strip()`: drop leading and trailing whitespace. -/
def pyStrip (s : Str) : Str :=
  ((s.dropWhile isPySpace).reverse.dropWhile isPySpace).reverse

/-- Python lexicographic `<` on strings (by code point). -/
def pyStrLt : Str → Str → Bool
  | [], [] => false
  | [], _ :: _ => true
  | _ :: _, [] => false
  | a :: s, b :: t => a < b || (a == b && pyStrLt s t)

/-- Python lexicographic `<=` on strings. -/
def pyStrLe (s t : Str) : Bool := !(pyStrLt t s)

/- ### Character-level lemmas -/

theorem char_toNat_ofNat (n : Nat) (h1 : 97 ≤ n) (h2 : n ≤ 122) :
    (Char.ofNat n).toNat = n := by
  have hv : Nat.isValidChar n := Or.inl (by omega)
  simp only [Char.ofNat, hv, dif_pos, Char.ofNatAux, Char.toNat]
  rfl

theorem toLower_toNat_of_upper (c : Char) (h : 65 ≤ c.toNat ∧ c.toNat ≤ 90) :
    (Char.toLower c).toNat = c.toNat + 32 := by
  unfold Char.toLower
  rw [if_pos (by omega)]
  exact char_toNat_ofNat _ (by omega) (by omega)

theorem toLower_eq_of_not_upper (c : Char) (h : ¬(65 ≤ c.toNat ∧ c.toNat ≤ 90)) :
    Char.toLower c = c := by
  unfold Char.toLower
  rw [if_neg (by omega)]

/-- Lowercasing is idempotent on characters. -/
theorem toLower_toLower (c : Char) : Char.toLower (Char.toLower c) = Char.toLower c := by
  by_cases h : 65 ≤ c.toNat ∧ c.toNat ≤ 90
  · have h2 := toLower_toNat_of_upper c h
    exact toLower_eq_of_not_upper _ (by omega)
  · have h2 := toLower_eq_of_not_upper c h
    rw [h2, h2]

/-- Lowercasing neither creates nor destroys whitespace. -/
theorem isPySpace_toLower (c : Char) : isPySpace (Char.toLower c) = isPySpace c := by
  by_cases h : 65 ≤ c.toNat ∧ c.toNat ≤ 90
  · have h2 := toLower_toNat_of_upper c h
    have h65 := h.1
    have h90 := h.2
    simp only [isPySpace, h2]
    rw [decide_eq_decide]
    omega
  · rw [toLower_eq_of_not_upper c h]

/- ### Strip / lower interaction lemmas -/

theorem head?_dropWhile_not {α : Type} (p : α → Bool) (l : List α) (a : α)
    (h : (List.dropWhile p l).head? = some a) : p a = false := by
  induction l with
  | nil => simp [List.dropWhile] at h
  | cons b t ih =>
    rw [List.dropWhile_cons] at h
    by_cases hb : p b
    · simp only [hb, if_true] at h
      exact ih h
    · rw [if_neg hb] at h
      simp only [List.head?_cons, Option.some.injEq] at h
      subst h
      simpa using hb

theorem getLast?_dropWhile {α : Type} (p : α → Bool) (l : List α)
    (h : List.dropWhile p l ≠ []) : (List.dropWhile p l).getLast? = l.getLast? := by
  induction l with
  | nil => simp [List.dropWhile] at h
  | cons b t ih =>
    rw [List.dropWhile_cons] at h ⊢
    by_cases hb : p b
    · simp only [hb, if_true] at h ⊢
      cases t with
      | nil => simp [List.dropWhile] at h
      | cons c t2 => rw [ih h, List.getLast?_cons_cons]
    · rw [if_neg hb]

/-- A string is "stripped" when neither end is whitespace. -/
def Stripped (s : Str) : Prop :=
  (∀ a ∈ s.head?, isPySpace a = false) ∧ (∀ a ∈ s.getLast?, isPySpace a = false)

theorem pyStrip_stripped (s : Str) : Stripped (pyStrip s) := by
  constructor
  · intro a ha
    rw [pyStrip, List.head?_reverse] at ha
    by_cases hnil : (s.dropWhile isPySpace).reverse.dropWhile isPySpace = []
    · simp [hnil] at ha
    · rw [getLast?_dropWhile _ _ hnil, List.getLast?_reverse] at ha
      exact head?_dropWhile_not _ _ _ ha
  · intro a ha
    rw [pyStrip, List.getLast?_reverse] at ha
    exact head?_dropWhile_not _ _ _ ha

theorem dropWhile_eq_self_of_head {α : Type} (p : α → Bool) (l : List α)
    (h : ∀ a ∈ l.head?, p a = false) : List.dropWhile p l = l := by
  cases l with
  | nil => simp [List.dropWhile]
  | cons b t =>
    rw [List.dropWhile_cons, if_neg]
    simp only [List.head?_cons, Option.mem_def, Option.some.injEq, forall_eq'] at h
    simp [h]

theorem pyStrip_of_stripped (s : Str) (h : Stripped s) : pyStrip s = s := by
  rw [pyStrip, dropWhile_eq_self_of_head _ _ h.1, dropWhile_eq_self_of_head, List.reverse_reverse]
  intro a ha
  rw [List.head?_reverse] at ha
  exact h.2 a ha

/-- Stripping is idempotent. -/
theorem pyStrip_pyStrip (s : Str) : pyStrip (pyStrip s) = pyStrip s :=
  pyStrip_of_stripped _ (pyStrip_stripped s)

theorem dropWhile_map_toLower (l : Str) :
    List.dropWhile isPySpace (l.map Char.toLower) =
      (List.dropWhile isPySpace l).map Char.toLower := by
  induction l with
  | nil => simp [List.dropWhile]
  | cons b t ih =>
    simp only [List.map_cons, List.dropWhile_cons, isPySpace_toLower]
    by_cases hb : isPySpace b
    · simp [hb, ih]
    · simp [hb]

/-- Stripping commutes with lowercasing. -/
theorem pyStrip_pyLower (s : Str) : pyStrip (pyLower s) = pyLower (pyStrip s) := by
  simp only [pyStrip, pyLower]
  rw [dropWhile_map_toLower, ← List.map_reverse, dropWhile_map_toLower, ← List.map_reverse]

/-- Lowercasing is idempotent on strings. -/
theorem pyLower_pyLower (s : Str) : pyLower (pyLower s) = pyLower s := by
  simp only [pyLower, List.map_map]
  congr 1
  funext c
  exact toLower_toLower c

/- ### Date validation: CPython `datetime.strptime(date, "%Y-%m-%d")`.

The `_strptime` regex for this pattern is four digits for the year
(`\d\d\d\d`), a dash, the month group `1[0-2]|0[1-9]|[1-9]` (one or
two digits, value 1..12), a dash, the day group
`3[0-1]|[1-2]\d|0[1-9]|[1-9]| [1-9]` (one or two digits, value 1..31,
or a space followed by a single non-zero digit), with no surrounding
text; `datetime` then requires year >= 1 and the day to fit the month
(Gregorian leap rule).  ASCII digits are modelled. -/

def isLeapYear (y : Nat) : Bool :=
  y % 4 == 0 && (y % 100 != 0 || y % 400 == 0)

def daysInMonth (y m : Nat) : Nat :=
  if m = 2 then (if isLeapYear y then 29 else 28)
  else if m = 4 ∨ m = 6 ∨ m = 9 ∨ m = 11 then 30
  else 31

def digitsVal (s : Str) : Nat :=
  s.foldl (fun n c => n * 10 + (c.toNat - 48)) 0

/-- Shape of the day group per the %d pattern
`3[0-1]|[1-2]\d|0[1-9]|[1-9]| [1-9]`: one or two digits, or a space
followed by a single non-zero digit. -/
def isStrptimeDayShape (ds : Str) : Bool :=
  ((ds.length == 1 || ds.length == 2) && ds.all Char.isDigit) ||
  (match ds with
   | [c1, c2] => c1 == ' ' && (c2.isDigit && decide ('1' ≤ c2))
   | _ => false)

/-- The day value `int(...)` extracts from the matched day group (a
leading space is stripped by `int`). -/
def dayVal (ds : Str) : Nat :=
  digitsVal (ds.dropWhile (fun c => c == ' '))

def isValidStrptimeDate (s : Str) : Bool :=
  match s.splitOn '-' with
  | [ys, ms, ds] =>
    ys.length == 4 && ys.all Char.isDigit &&
    (ms.length == 1 || ms.length == 2) && ms.all Char.isDigit &&
    isStrptimeDayShape ds &&
    decide (1 ≤ digitsVal ys) &&
    decide (1 ≤ digitsVal ms) && decide (digitsVal ms ≤ 12) &&
    decide (1 ≤ dayVal ds) &&
    decide (dayVal ds ≤ daysInMonth (digitsVal ys) (digitsVal ms))
  | _ => false

/- ### The Expense entity (tracker/models.py) -/

/-- Error messages carried by the ValueError (`InvalidExpense`) raised by
the Expense constructor. -/
def msg_bad_date : Str := "date must be YYYY-MM-DD".data

def msg_empty_category : Str := "category cannot be empty".data

def msg_amount_positive : Str := "amount must be > 0".data

def msg_amount_numeric : Str := "amount must be a valid number".data

def defaultCurrency : Str := "BDT".data

/-- The amount argument as it reaches `float(amount)`, by conversion
outcome: a finite value (modelled as a rational), a NaN (for example
the string "nan", which converts without error), or one whose
conversion raises `TypeError`/`ValueError`. -/
inductive AmountInput where
  | num (q : ℚ)
  | nan
  | nonNumeric
deriving DecidableEq

/-- A Python float as stored in the amount attribute: a finite value
(modelled as a rational) or NaN.  Every ordering comparison involving
NaN is false. -/
inductive PyFloat where
  | num (q : ℚ)
  | nan
deriving DecidableEq

/-- The Python comparison `x <= 0` on a float: false for NaN. -/
def pyLeZero : PyFloat → Bool
  | PyFloat.num q => decide (q ≤ 0)
  | PyFloat.nan => false

/-- The Python comparison `x > 0` on a float: false for NaN. -/
def pyGtZero : PyFloat → Bool
  | PyFloat.num q => decide (0 < q)
  | PyFloat.nan => false

/-- One expense record (the attributes set by `Expense.__init__`). -/
structure Expense where
  id : Str
  date : Str
  category : Str
  amount : ℚ
  note : Str
  currency : Str
deriving DecidableEq

/-- `Expense._validate_date`. -/
def validate_date (date : Str) : Except Str Str :=
  if isValidStrptimeDate date then Except.ok date else Except.error msg_bad_date

/-- `Expense._validate_category`: empty or whitespace-only is rejected,
otherwise the category is returned trimmed and lowercased. -/
def validate_category (category : Str) : Except Str Str :=
  if pyStrip category = [] then Except.error msg_empty_category
  else Except.ok (pyLower (pyStrip category))

/-- `Expense._validate_amount`, full model: a failing `float(...)`
conversion gives the "valid number" message; the converted float is
then rejected with the "> 0" message when `amount <= 0` — a test NaN
passes, since every comparison with NaN is false, so the validator
accepts NaN and does not in fact guarantee a positive amount (see
C1). -/
def validate_amount_float : AmountInput → Except Str PyFloat
  | AmountInput.nonNumeric => Except.error msg_amount_numeric
  | AmountInput.nan =>
    if pyLeZero PyFloat.nan then Except.error msg_amount_positive
    else Except.ok PyFloat.nan
  | AmountInput.num q =>
    if pyLeZero (PyFloat.num q) then Except.error msg_amount_positive
    else Except.ok (PyFloat.num q)

/-- `Expense._validate_amount` restricted to finite conversion
outcomes, with a rational result; this restriction underlies the
finite-amount store model used by the storage, query and service
claims.  On `num` and `nonNumeric` inputs it agrees with the faithful
`validate_amount_float` (theorem `validate_amount_agrees`); the NaN
case — which the program accepts, see `validate_amount_float` and C1 —
is deliberately outside this restriction and mapped to an error
here. -/
def validate_amount : AmountInput → Except Str ℚ
  | AmountInput.nonNumeric => Except.error msg_amount_numeric
  | AmountInput.nan => Except.error msg_amount_numeric
  | AmountInput.num q => if q ≤ 0 then Except.error msg_amount_positive else Except.ok q

/-- `Expense._generate_id`: "EXP-" ++ date without dashes ++ "-" ++ a
six-character time-of-day token (the wall-clock token is a parameter;
the embedding does not model real time). -/
def generateId (date : Str) (timeToken : Str) : Str :=
  ("EXP-".data ++ date.filter (fun c => c != '-')) ++ '-' :: timeToken

/-- `Expense.__init__`: validates date, then category, then amount, and
keeps a supplied non-empty id, generating one otherwise (Python's falsy
test makes `None` and `""` both trigger generation). -/
def mkExpense (date category : Str) (amount : AmountInput) (note currency : Str)
    (expense_id : Option Str) (timeToken : Str) : Except Str Expense :=
  match validate_date date with
  | Except.error m => Except.error m
  | Except.ok d =>
    match validate_category category with
    | Except.error m => Except.error m
    | Except.ok c =>
      match validate_amount amount with
      | Except.error m => Except.error m
      | Except.ok a =>
        Except.ok
          ⟨match expense_id with
            | some j => if j = [] then generateId d timeToken else j
            | none => generateId d timeToken,
           d, c, a, note, currency⟩

/-- An expense record as constructed by the full model, with the
amount kept as the Python float the validator returned (possibly
NaN). -/
structure ExpenseRec where
  id : Str
  date : Str
  category : Str
  amount : PyFloat
  note : Str
  currency : Str
deriving DecidableEq

/-- View of a finite-amount expense as a full record. -/
def Expense.toRec (e : Expense) : ExpenseRec :=
  ⟨e.id, e.date, e.category, PyFloat.num e.amount, e.note, e.currency⟩

/-- `Expense.__init__`, full model: identical to `mkExpense` except
that the possibly-NaN amount is carried through (theorem
`mkExpenseRec_agrees` proves the two agree off the NaN case). -/
def mkExpenseRec (date category : Str) (amount : AmountInput) (note currency : Str)
    (expense_id : Option Str) (timeToken : Str) : Except Str ExpenseRec :=
  match validate_date date with
  | Except.error m => Except.error m
  | Except.ok d =>
    match validate_category category with
    | Except.error m => Except.error m
    | Except.ok c =>
      match validate_amount_float amount with
      | Except.error m => Except.error m
      | Except.ok a =>
        Except.ok
          ⟨match expense_id with
            | some j => if j = [] then generateId d timeToken else j
            | none => generateId d timeToken,
           d, c, a, note, currency⟩

/-- The flat field mapping produced by `Expense.to_dict` and consumed by
`Expense.from_dict` (absent keys looked up with `.get` are `none`). -/
structure ExpenseDict where
  id : Option Str
  date : Str
  category : Str
  amount : AmountInput
  note : Option Str
  currency : Option Str
deriving DecidableEq

/-- `Expense.to_dict`. -/
def to_dict (e : Expense) : ExpenseDict :=
  ⟨some e.id, e.date, e.category, AmountInput.num e.amount, some e.note, some e.currency⟩

/-- `Expense.from_dict`: reconstructs through the validating constructor,
defaulting note to `""` and currency to `"BDT"`. -/
def from_dict (data : ExpenseDict) (timeToken : Str) : Except Str Expense :=
  mkExpense data.date data.category data.amount
    (data.note.getD []) (data.currency.getD defaultCurrency) data.id timeToken

/-- The entity invariant the spec states for constructed expenses:
valid date, category a non-empty fixed point of trim+lower, positive
amount, non-empty id. -/
def Expense.WellFormed (e : Expense) : Bool :=
  isValidStrptimeDate e.date &&
  (pyStrip e.category != []) &&
  (pyLower (pyStrip e.category) == e.category) &&
  decide (0 < e.amount) &&
  (e.id != [])

/- ### Constructor lemmas -/

theorem validate_date_ok {date d : Str} (h : validate_date date = Except.ok d) :
    d = date ∧ isValidStrptimeDate date = true := by
  unfold validate_date at h
  by_cases hv : isValidStrptimeDate date = true
  · rw [if_pos hv] at h
    cases h
    exact ⟨rfl, hv⟩
  · rw [if_neg hv] at h
    cases h

theorem validate_category_ok {category c : Str} (h : validate_category category = Except.ok c) :
    c = pyLower (pyStrip category) ∧ pyStrip category ≠ [] := by
  unfold validate_category at h
  by_cases hv : pyStrip category = []
  · rw [if_pos hv] at h
    cases h
  · rw [if_neg hv] at h
    cases h
    exact ⟨rfl, hv⟩

theorem validate_amount_ok {amount : AmountInput} {a : ℚ} (h : validate_amount amount = Except.ok a) :
    amount = AmountInput.num a ∧ 0 < a := by
  cases amount with
  | nonNumeric => cases h
  | nan => cases h
  | num q =>
    simp only [validate_amount] at h
    by_cases hq : q ≤ 0
    · rw [if_pos hq] at h
      cases h
    · rw [if_neg hq] at h
      cases h
      exact ⟨rfl, lt_of_not_le hq⟩

/-- The normalized category is a fixed point of strip and of lower. -/
theorem normalized_category_fixed (x : Str) :
    pyStrip (pyLower (pyStrip x)) = pyLower (pyStrip x) ∧
    pyLower (pyLower (pyStrip x)) = pyLower (pyStrip x) := by
  constructor
  · rw [pyStrip_pyLower, pyStrip_pyStrip]
  · rw [pyLower_pyLower]

theorem generateId_ne_nil (d t : Str) : generateId d t ≠ [] := by
  simp [generateId]

/-- Inversion: everything construction success guarantees about the
resulting record, including that each field comes straight from the
corresponding validator. -/
theorem mkExpense_ok_inv {date category : Str} {amount : AmountInput}
    {note currency : Str} {expense_id : Option Str} {timeToken : Str} {e : Expense}
    (h : mkExpense date category amount note currency expense_id timeToken = Except.ok e) :
    e.date = date ∧ isValidStrptimeDate date = true ∧
    e.category = pyLower (pyStrip category) ∧ pyStrip category ≠ [] ∧
    amount = AmountInput.num e.amount ∧ 0 < e.amount ∧
    e.note = note ∧ e.currency = currency ∧ e.id ≠ [] := by
  unfold mkExpense at h
  cases hd : validate_date date with
  | error m => rw [hd] at h; cases h
  | ok d =>
    rw [hd] at h
    cases hc : validate_category category with
    | error m => rw [hc] at h; cases h
    | ok c =>
      rw [hc] at h
      cases ha : validate_amount amount with
      | error m => rw [ha] at h; cases h
      | ok a =>
        rw [ha] at h
        obtain ⟨hd1, hd2⟩ := validate_date_ok hd
        obtain ⟨hc1, hc2⟩ := validate_category_ok hc
        obtain ⟨ha1, ha2⟩ := validate_amount_ok ha
        cases h
        subst hd1
        subst hc1
        refine ⟨rfl, hd2, rfl, hc2, ha1, ha2, rfl, rfl, ?_⟩
        cases expense_id with
        | none => exact generateId_ne_nil _ _
        | some j =>
          by_cases hj : j = []
          · simp only [hj, if_pos rfl]
            exact generateId_ne_nil _ _
          · simp only [if_neg hj]
            exact hj

/-- Construction success establishes the entity invariant. -/
theorem mkExpense_wellFormed {date category : Str} {amount : AmountInput}
    {note currency : Str} {expense_id : Option Str} {timeToken : Str} {e : Expense}
    (h : mkExpense date category amount note currency expense_id timeToken = Except.ok e) :
    e.WellFormed = true := by
  obtain ⟨h1, h2, h3, h4, h5, h6, h7, h8, h9⟩ := mkExpense_ok_inv h
  have hfix := normalized_category_fixed category
  unfold Expense.WellFormed
  rw [h1, h3]
  simp only [Bool.and_eq_true, bne_iff_ne, ne_eq, beq_iff_eq, decide_eq_true_eq]
  refine ⟨⟨⟨⟨h2, ?_⟩, ?_⟩, h6⟩, h9⟩
  · rw [hfix.1]
    intro hnil
    exact h4 (by simpa [pyLower] using hnil)
  · rw [hfix.1, hfix.2]

/-- A well-formed expense passes re-construction unchanged (up to the
caller-chosen note and currency). -/
theorem mkExpense_of_wellFormed (e : Expense) (note currency timeToken : Str)
    (h : e.WellFormed = true) :
    mkExpense e.date e.category (AmountInput.num e.amount) note currency (some e.id) timeToken
      = Except.ok ⟨e.id, e.date, e.category, e.amount, note, currency⟩ := by
  unfold Expense.WellFormed at h
  simp only [Bool.and_eq_true, bne_iff_ne, ne_eq, beq_iff_eq, decide_eq_true_eq] at h
  obtain ⟨⟨⟨⟨h1, h2⟩, h3⟩, h4⟩, h5⟩ := h
  have hvd : validate_date e.date = Except.ok e.date := by
    unfold validate_date
    rw [if_pos h1]
  have hvc : validate_category e.category = Except.ok e.category := by
    unfold validate_category
    rw [if_neg h2, h3]
  have hva : validate_amount (AmountInput.num e.amount) = Except.ok e.amount := by
    simp only [validate_amount]
    rw [if_neg (not_le.mpr h4)]
  unfold mkExpense
  rw [hvd, hvc, hva]
  dsimp only
  rw [if_neg h5]

/-- On finite and non-numeric inputs the restricted validator agrees
with the full one. -/
theorem validate_amount_agrees (amount : AmountInput) (h : amount ≠ AmountInput.nan) :
    validate_amount_float amount = Except.map PyFloat.num (validate_amount amount) := by
  cases amount with
  | nan => exact absurd rfl h
  | nonNumeric => rfl
  | num q =>
    by_cases hq : q ≤ 0
    · simp [validate_amount_float, pyLeZero, validate_amount, hq, Except.map]
    · simp [validate_amount_float, pyLeZero, validate_amount, hq, Except.map]

/-- Off the NaN case the finite-restricted constructor agrees with the
full constructor. -/
theorem mkExpenseRec_agrees (date category : Str) (amount : AmountInput)
    (note currency : Str) (expense_id : Option Str) (timeToken : Str)
    (h : amount ≠ AmountInput.nan) :
    mkExpenseRec date category amount note currency expense_id timeToken
      = Except.map Expense.toRec
          (mkExpense date category amount note currency expense_id timeToken) := by
  unfold mkExpenseRec mkExpense
  cases hd : validate_date date with
  | error m => rfl
  | ok d =>
    cases hc : validate_category category with
    | error m => rfl
    | ok c =>
      rw [validate_amount_agrees amount h]
      cases ha : validate_amount amount with
      | error m => rfl
      | ok a => rfl

theorem validate_amount_float_ok {amount : AmountInput} {a : PyFloat}
    (h : validate_amount_float amount = Except.ok a) :
    (∃ q : ℚ, amount = AmountInput.num q ∧ a = PyFloat.num q ∧ 0 < q) ∨
    (amount = AmountInput.nan ∧ a = PyFloat.nan) := by
  cases amount with
  | nonNumeric => cases h
  | nan =>
    simp only [validate_amount_float] at h
    rw [if_neg (by decide)] at h
    cases h
    exact Or.inr ⟨rfl, rfl⟩
  | num q =>
    simp only [validate_amount_float] at h
    by_cases hq : q ≤ 0
    · rw [if_pos (by simp [pyLeZero, hq])] at h
      cases h
    · rw [if_neg (by simp [pyLeZero, hq])] at h
      cases h
      exact Or.inl ⟨q, rfl, rfl, lt_of_not_le hq⟩

/-- Inversion for the full constructor: everything a successful
construction guarantees, including that the stored amount is either a
positive finite value or NaN. -/
theorem mkExpenseRec_ok_inv {date category : Str} {amount : AmountInput}
    {note currency : Str} {expense_id : Option Str} {timeToken : Str} {e : ExpenseRec}
    (h : mkExpenseRec date category amount note currency expense_id timeToken = Except.ok e) :
    e.date = date ∧ isValidStrptimeDate date = true ∧
    e.category = pyLower (pyStrip category) ∧ pyStrip category ≠ [] ∧
    ((∃ q : ℚ, amount = AmountInput.num q ∧ e.amount = PyFloat.num q ∧ 0 < q) ∨
      (amount = AmountInput.nan ∧ e.amount = PyFloat.nan)) ∧
    e.note = note ∧ e.currency = currency ∧ e.id ≠ [] := by
  unfold mkExpenseRec at h
  cases hd : validate_date date with
  | error m => rw [hd] at h; cases h
  | ok d =>
    rw [hd] at h
    cases hc : validate_category category with
    | error m => rw [hc] at h; cases h
    | ok c =>
      rw [hc] at h
      cases ha : validate_amount_float amount with
      | error m => rw [ha] at h; cases h
      | ok a =>
        rw [ha] at h
        obtain ⟨hd1, hd2⟩ := validate_date_ok hd
        obtain ⟨hc1, hc2⟩ := validate_category_ok hc
        have ha2 := validate_amount_float_ok ha
        cases h
        subst hd1
        subst hc1
        refine ⟨rfl, hd2, rfl, hc2, ?_, rfl, rfl, ?_⟩
        · rcases ha2 with ⟨q, hq1, hq2, hq3⟩ | ⟨h1, h2⟩
          · exact Or.inl ⟨q, hq1, hq2, hq3⟩
          · exact Or.inr ⟨h1, h2⟩
        · cases expense_id with
          | none => exact generateId_ne_nil _ _
          | some j =>
            by_cases hj : j = []
            · simp only [hj, if_pos rfl]
              exact generateId_ne_nil _ _
            · simp only [if_neg hj]
              exact hj

/- ### Storage (tracker/storage.py).  The store file state is modelled by
the list of expense records it holds; `_write_data` is additionally
modelled at the file-content level for the atomicity claim. -/

/-- How a single `_write_data` run can fail: at `open` (before the file
is touched) or after `open` (which in CPython `open(path, "w")` has
already truncated the file), with `k` characters of the new document
flushed before the failure. -/
inductive WriteFailure where
  | atOpen
  | afterOpen (k : Nat)
deriving DecidableEq

/-- `ExpenseStorage._write_data`: given the prior file content, the
serialized new document, and this run's failure behaviour, returns the
resulting file content and whether the write succeeded. -/
def write_data (prior doc : Str) : Option WriteFailure → Str × Bool
  | none => (doc, true)
  | some WriteFailure.atOpen => (prior, false)
  | some (WriteFailure.afterOpen k) => (doc.take k, false)

/-- `ExpenseStorage.delete_expense` over the loaded list: keeps every
record whose id differs, returns False without rewriting when nothing
was removed.  Result: (returned bool, stored list afterwards, whether a
rewrite happened). -/
def delete_expense (expenses : List Expense) (expense_id : Str) :
    Bool × List Expense × Bool :=
  let remaining := expenses.filter (fun e => e.id != expense_id)
  if remaining.length = expenses.length then (false, expenses, false)
  else (true, remaining, true)

/-- `ExpenseStorage.get_expense_by_id`: linear search, first match. -/
def get_expense_by_id (expenses : List Expense) (expense_id : Str) : Option Expense :=
  expenses.find? (fun e => e.id == expense_id)

/-- The loop inside `ExpenseStorage.update_expense`: replace the first
record with the given id, reporting whether one was found. -/
def replaceFirst (expenses : List Expense) (expense_id : Str) (updated : Expense) :
    List Expense × Bool :=
  match expenses with
  | [] => ([], false)
  | e :: rest =>
    if e.id = expense_id then (updated :: rest, true)
    else
      let r := replaceFirst rest expense_id updated
      (e :: r.1, r.2)

/-- `ExpenseStorage.update_expense`: rewrite only if found.  Result:
(returned bool, stored list afterwards, whether a rewrite happened). -/
def storage_update_expense (expenses : List Expense) (expense_id : Str) (updated : Expense) :
    Bool × List Expense × Bool :=
  let r := replaceFirst expenses expense_id updated
  if r.2 then (true, r.1, true) else (false, expenses, false)

/- ### Service query engine (tracker/service.py) -/

/-- The optional filter parameters of `list_expenses` / `summary`. -/
structure Filters where
  month : Option Str
  from_date : Option Str
  to_date : Option Str
  category : Option Str
  min_amount : Option ℚ
  max_amount : Option ℚ
deriving DecidableEq

/-- One string-valued filter stage of `_apply_filters`: `if param:`
skips the stage when the parameter is `None` or empty (Python
truthiness), otherwise keeps the expenses satisfying the predicate. -/
def stageStr (l : List Expense) (o : Option Str) (p : Str → Expense → Bool) : List Expense :=
  match o with
  | some s => if s = [] then l else l.filter (p s)
  | none => l

/-- One amount-bound filter stage of `_apply_filters`: skipped only
when the parameter `is None`. -/
def stageAmt (l : List Expense) (o : Option ℚ) (p : ℚ → Expense → Bool) : List Expense :=
  match o with
  | some q => l.filter (p q)
  | none => l

/-- `ExpenseService._apply_filters`: month prefix, then date range,
then case-insensitive category equality, then amount bounds. -/
def apply_filters (expenses : List Expense) (f : Filters) : List Expense :=
  let l1 := stageStr expenses f.month (fun m e => List.isPrefixOf m e.date)
  let l2 := stageStr l1 f.from_date (fun d e => pyStrLe d e.date)
  let l3 := stageStr l2 f.to_date (fun d e => pyStrLe e.date d)
  let l4 := stageStr l3 f.category (fun c e => pyLower e.category == pyLower c)
  let l5 := stageAmt l4 f.min_amount (fun q e => decide (q ≤ e.amount))
  stageAmt l5 f.max_amount (fun q e => decide (e.amount ≤ q))

/-- The three recognised sort fields of `_sort_expenses`. -/
inductive SortField where
  | date
  | amount
  | category
deriving DecidableEq

/-- The ascending comparison induced by the `sort_keys` mapping. -/
def sortKeyLe : SortField → Expense → Expense → Bool
  | SortField.date, a, b => pyStrLe a.date b.date
  | SortField.amount, a, b => decide (a.amount ≤ b.amount)
  | SortField.category, a, b => pyStrLe a.category b.category

/-- The effective comparison used by `sorted(expenses, key=...,
reverse=descending)`: the ascending key comparison, flipped on strict
pairs when descending (ties compare true either way, which is what
keeps CPython's reverse sort stable). -/
def sortLe (sort_by : SortField) (descending : Bool) (a b : Expense) : Bool :=
  if descending then sortKeyLe sort_by b a else sortKeyLe sort_by a b

/-- `ExpenseService._sort_expenses`: Python `sorted` is a stable merge
sort. -/
def sort_expenses (expenses : List Expense) (sort_by : SortField) (descending : Bool) :
    List Expense :=
  expenses.mergeSort (sortLe sort_by descending)

/-- One step of the `totals_by_category` accumulation: insert the key
with value 0 if absent, then add the amount to its entry. -/
def addToCategory (totals : List (Str × ℚ)) (cat : Str) (amt : ℚ) : List (Str × ℚ) :=
  let t1 := if totals.any (fun p => p.1 == cat) then totals else totals ++ [(cat, 0)]
  t1.map (fun p => if p.1 = cat then (p.1, p.2 + amt) else p)

/-- `ExpenseService._calculate_summary`: (count, grand_total,
totals_by_category as an insertion-ordered key/value list). -/
def calculate_summary (expenses : List Expense) : Nat × ℚ × List (Str × ℚ) :=
  (expenses.length,
   expenses.foldl (fun acc e => acc + e.amount) 0,
   expenses.foldl (fun totals e => addToCategory totals e.category e.amount) [])

/-- Looking a category up in the totals mapping. -/
def lookupTotal (totals : List (Str × ℚ)) (cat : Str) : Option ℚ :=
  (totals.find? (fun p => p.1 == cat)).map (fun p => p.2)

/- ### Service update (tracker/service.py, update_expense) -/

/-- The merged record built by `ExpenseService.update_expense`: a falsy
(`None`, empty, zero) amount/category/date falls back to the existing
value; note falls back only when `None`. -/
def update_merge (existing : Expense) (amount : Option ℚ) (note : Option Str)
    (category : Option Str) (date : Option Str) (timeToken : Str) : Except Str Expense :=
  mkExpense
    (match date with
     | some d => if d = [] then existing.date else d
     | none => existing.date)
    (match category with
     | some c => if c = [] then existing.category else c
     | none => existing.category)
    (AmountInput.num
      (match amount with
       | some q => if q = 0 then existing.amount else q
       | none => existing.amount))
    (match note with
     | some n => n
     | none => existing.note)
    existing.currency
    (some existing.id)
    timeToken

/-- `ExpenseService.update_expense` over the stored list: a `none`
lookup yields `(false, unchanged)`; a failed merge re-raises the
validation error; otherwise the store replaces the first record with
the matching id. -/
def service_update_expense (stored : List Expense) (expense_id : Str) (amount : Option ℚ)
    (note : Option Str) (category : Option Str) (date : Option Str) (timeToken : Str) :
    Except Str (Bool × List Expense) :=
  match get_expense_by_id stored expense_id with
  | none => Except.ok (false, stored)
  | some existing =>
    match update_merge existing amount note category date timeToken with
    | Except.error m => Except.error m
    | Except.ok updated =>
      let r := storage_update_expense stored expense_id updated
      Except.ok (r.1, r.2.1)

/- ### Lexicographic string order lemmas -/

theorem pyStrLt_irrefl (s : Str) : pyStrLt s s = false := by
  induction s with
  | nil => rfl
  | cons a t ih => simp [pyStrLt, ih]

theorem pyStrLt_trans {s t u : Str} (h1 : pyStrLt s t = true) (h2 : pyStrLt t u = true) :
    pyStrLt s u = true := by
  induction s generalizing t u with
  | nil =>
    cases t with
    | nil => simp [pyStrLt] at h1
    | cons b tb =>
      cases u with
      | nil => simp [pyStrLt] at h2
      | cons c tc => rfl
  | cons a ta ih =>
    cases t with
    | nil => simp [pyStrLt] at h1
    | cons b tb =>
      cases u with
      | nil => simp [pyStrLt] at h2
      | cons c tc =>
        simp only [pyStrLt, Bool.or_eq_true, Bool.and_eq_true, beq_iff_eq,
          decide_eq_true_eq] at h1 h2 ⊢
        rcases h1 with hab | ⟨hab, h1t⟩
        · rcases h2 with hbc | ⟨hbc, h2t⟩
          · exact Or.inl (lt_trans hab hbc)
          · exact Or.inl (hbc ▸ hab)
        · rcases h2 with hbc | ⟨hbc, h2t⟩
          · exact Or.inl (hab ▸ hbc)
          · exact Or.inr ⟨hab.trans hbc, ih h1t h2t⟩

theorem pyStrLt_connex {s t : Str} (h1 : pyStrLt s t = false) (h2 : pyStrLt t s = false) :
    s = t := by
  induction s generalizing t with
  | nil =>
    cases t with
    | nil => rfl
    | cons b tb => simp [pyStrLt] at h1
  | cons a ta ih =>
    cases t with
    | nil => simp [pyStrLt] at h2
    | cons b tb =>
      simp only [pyStrLt, Bool.or_eq_false_iff, Bool.and_eq_false_iff,
        decide_eq_false_iff_not, beq_eq_false_iff_ne, ne_eq] at h1 h2
      have hab : a = b := le_antisymm (not_lt.mp h2.1) (not_lt.mp h1.1)
      rcases h1.2 with hne | hlt1
      · exact absurd hab hne
      · rcases h2.2 with hne | hlt2
        · exact absurd hab.symm hne
        · rw [hab, ih hlt1 hlt2]

theorem pyStrLe_refl (s : Str) : pyStrLe s s = true := by
  simp [pyStrLe, pyStrLt_irrefl]

theorem pyStrLe_total (s t : Str) : (pyStrLe s t || pyStrLe t s) = true := by
  by_cases h1 : pyStrLt t s = true
  · by_cases h2 : pyStrLt s t = true
    · have := pyStrLt_trans h1 h2
      rw [pyStrLt_irrefl] at this
      cases this
    · simp [pyStrLe, Bool.eq_false_iff.mpr h2]
  · simp [pyStrLe, Bool.eq_false_iff.mpr h1]

theorem pyStrLe_trans {s t u : Str} (h1 : pyStrLe s t = true) (h2 : pyStrLe t u = true) :
    pyStrLe s u = true := by
  simp only [pyStrLe, Bool.not_eq_true', Bool.not_eq_true] at h1 h2 ⊢
  by_cases htu : pyStrLt t u = true
  · by_cases hus : pyStrLt u s = true
    · have := pyStrLt_trans htu hus
      rw [this] at h1
      cases h1
    · exact Bool.eq_false_iff.mpr hus
  · have : t = u := pyStrLt_connex (Bool.eq_false_iff.mpr htu) h2
    rw [← this]
    exact h1

/- ### Sort comparator lemmas -/

theorem sortKeyLe_trans (f : SortField) {a b c : Expense}
    (h1 : sortKeyLe f a b = true) (h2 : sortKeyLe f b c = true) : sortKeyLe f a c = true := by
  cases f with
  | date => exact pyStrLe_trans h1 h2
  | amount =>
    simp only [sortKeyLe, decide_eq_true_eq] at h1 h2 ⊢
    exact le_trans h1 h2
  | category => exact pyStrLe_trans h1 h2

theorem sortKeyLe_total (f : SortField) (a b : Expense) :
    (sortKeyLe f a b || sortKeyLe f b a) = true := by
  cases f with
  | date => exact pyStrLe_total _ _
  | amount =>
    simp only [sortKeyLe, Bool.or_eq_true, decide_eq_true_eq]
    exact le_total _ _
  | category => exact pyStrLe_total _ _

theorem sortLe_trans (f : SortField) (d : Bool) {a b c : Expense}
    (h1 : sortLe f d a b = true) (h2 : sortLe f d b c = true) : sortLe f d a c = true := by
  cases d with
  | false =>
    simp only [sortLe, if_neg Bool.false_ne_true] at h1 h2 ⊢
    exact sortKeyLe_trans f h1 h2
  | true =>
    simp only [sortLe, if_pos rfl] at h1 h2 ⊢
    exact sortKeyLe_trans f h2 h1

theorem sortLe_total (f : SortField) (d : Bool) (a b : Expense) :
    (sortLe f d a b || sortLe f d b a) = true := by
  cases d with
  | false =>
    simp only [sortLe, if_neg Bool.false_ne_true]
    exact sortKeyLe_total f a b
  | true =>
    simp only [sortLe, if_pos rfl]
    rw [Bool.or_comm]
    exact sortKeyLe_total f a b

/-- Equality of the sort key selected by `sort_keys[sort_by]`. -/
def sortKeyEq (f : SortField) (a b : Expense) : Prop :=
  match f with
  | SortField.date => a.date = b.date
  | SortField.amount => a.amount = b.amount
  | SortField.category => a.category = b.category

theorem sortLe_of_sortKeyEq (f : SortField) (d : Bool) {a b : Expense}
    (h : sortKeyEq f a b) : sortLe f d a b = true := by
  have key : ∀ x y : Expense, sortKeyEq f x y → sortKeyLe f x y = true := by
    intro x y hxy
    cases f with
    | date =>
      simp only [sortKeyEq] at hxy
      simp only [sortKeyLe]
      rw [hxy]
      exact pyStrLe_refl _
    | amount =>
      simp only [sortKeyEq] at hxy
      simp only [sortKeyLe, decide_eq_true_eq]
      exact le_of_eq hxy
    | category =>
      simp only [sortKeyEq] at hxy
      simp only [sortKeyLe]
      rw [hxy]
      exact pyStrLe_refl _
  have hsymm : sortKeyEq f b a := by
    cases f with
    | date => exact (by simpa [sortKeyEq] using h : a.date = b.date).symm
    | amount => exact (by simpa [sortKeyEq] using h : a.amount = b.amount).symm
    | category => exact (by simpa [sortKeyEq] using h : a.category = b.category).symm
  cases d with
  | false =>
    simp only [sortLe, if_neg Bool.false_ne_true]
    exact key a b h
  | true =>
    simp only [sortLe, if_pos rfl]
    exact key b a hsymm

/- ### Filter lemmas -/

/-- The per-expense predicate of one string filter stage. -/
def stageStrPred (o : Option Str) (p : Str → Expense → Bool) (e : Expense) : Bool :=
  match o with
  | some s => if s = [] then true else p s e
  | none => true

/-- The per-expense predicate of one amount-bound stage. -/
def stageAmtPred (o : Option ℚ) (p : ℚ → Expense → Bool) (e : Expense) : Bool :=
  match o with
  | some q => p q e
  | none => true

/-- The conjunction of the predicates of the stages `_apply_filters`
actually runs (string filters count only when supplied non-empty). -/
def matchesActiveFilters (f : Filters) (e : Expense) : Bool :=
  stageStrPred f.month (fun m e2 => List.isPrefixOf m e2.date) e &&
  stageStrPred f.from_date (fun d e2 => pyStrLe d e2.date) e &&
  stageStrPred f.to_date (fun d e2 => pyStrLe e2.date d) e &&
  stageStrPred f.category (fun c e2 => pyLower e2.category == pyLower c) e &&
  stageAmtPred f.min_amount (fun q e2 => decide (q ≤ e2.amount)) e &&
  stageAmtPred f.max_amount (fun q e2 => decide (e2.amount ≤ q)) e

/-- Modelled from the spec: an expense "satisfies all supplied
predicates" — every filter that is supplied (not `None`) must hold of
the expense (month prefix, inclusive date range, case-insensitive
category equality, inclusive amount bounds). -/
def specMatchesFilters (f : Filters) (e : Expense) : Bool :=
  (match f.month with
   | some m => List.isPrefixOf m e.date
   | none => true) &&
  (match f.from_date with
   | some d => pyStrLe d e.date
   | none => true) &&
  (match f.to_date with
   | some d => pyStrLe e.date d
   | none => true) &&
  (match f.category with
   | some c => pyLower e.category == pyLower c
   | none => true) &&
  (match f.min_amount with
   | some q => decide (q ≤ e.amount)
   | none => true) &&
  (match f.max_amount with
   | some q => decide (e.amount ≤ q)
   | none => true)

theorem stageStr_eq_filter (l : List Expense) (o : Option Str) (p : Str → Expense → Bool) :
    stageStr l o p = l.filter (stageStrPred o p) := by
  cases o with
  | none =>
    have h : stageStrPred (none : Option Str) p = fun _ => true := rfl
    simp [stageStr, h]
  | some s =>
    by_cases hs : s = []
    · subst hs
      have h : stageStrPred (some ([] : Str)) p = fun _ => true := rfl
      simp [stageStr, h]
    · have h : stageStrPred (some s) p = p s := by
        funext e
        simp [stageStrPred, hs]
      simp [stageStr, hs, h]

theorem stageAmt_eq_filter (l : List Expense) (o : Option ℚ) (p : ℚ → Expense → Bool) :
    stageAmt l o p = l.filter (stageAmtPred o p) := by
  cases o with
  | none =>
    have h : stageAmtPred (none : Option ℚ) p = fun _ => true := rfl
    simp [stageAmt, h]
  | some q => rfl

theorem and_chain_left (b1 b2 b3 b4 b5 b6 : Bool) :
    (b6 && (b5 && (b4 && (b3 && (b2 && b1))))) = (b1 && b2 && b3 && b4 && b5 && b6) := by
  cases b1 <;> cases b2 <;> cases b3 <;> cases b4 <;> cases b5 <;> cases b6 <;> rfl

theorem and_chain_right (b1 b2 b3 b4 b5 b6 : Bool) :
    (b1 && (b2 && (b3 && (b4 && (b5 && b6))))) = (b1 && b2 && b3 && b4 && b5 && b6) := by
  cases b1 <;> cases b2 <;> cases b3 <;> cases b4 <;> cases b5 <;> cases b6 <;> rfl

/-- `_apply_filters` is one pass of `filter` with the conjunction of the
active predicates: intersection semantics. -/
theorem apply_filters_eq_filter (l : List Expense) (f : Filters) :
    apply_filters l f = l.filter (matchesActiveFilters f) := by
  simp only [apply_filters, stageStr_eq_filter, stageAmt_eq_filter, List.filter_filter]
  refine List.filter_congr ?_
  intro e _
  rw [matchesActiveFilters]
  exact and_chain_left _ _ _ _ _ _

/-- The same six filter stages applied in the opposite order (amount
bounds first, month last), used to state order-independence. -/
def apply_filters_reversed (expenses : List Expense) (f : Filters) : List Expense :=
  let l1 := stageAmt expenses f.max_amount (fun q e => decide (e.amount ≤ q))
  let l2 := stageAmt l1 f.min_amount (fun q e => decide (q ≤ e.amount))
  let l3 := stageStr l2 f.category (fun c e => pyLower e.category == pyLower c)
  let l4 := stageStr l3 f.to_date (fun d e => pyStrLe e.date d)
  let l5 := stageStr l4 f.from_date (fun d e => pyStrLe d e.date)
  stageStr l5 f.month (fun m e => List.isPrefixOf m e.date)

theorem apply_filters_reversed_eq_filter (l : List Expense) (f : Filters) :
    apply_filters_reversed l f = l.filter (matchesActiveFilters f) := by
  simp only [apply_filters_reversed, stageStr_eq_filter, stageAmt_eq_filter, List.filter_filter]
  refine List.filter_congr ?_
  intro e _
  rw [matchesActiveFilters]
  exact and_chain_right _ _ _ _ _ _

/- ### Aggregation lemmas -/

/-- Total amount of the expenses in a given category. -/
def sumCat (l : List Expense) (cat : Str) : ℚ :=
  ((l.filter (fun e => e.category == cat)).map Expense.amount).sum

theorem sumCat_cons (e : Expense) (l : List Expense) (cat : Str) :
    sumCat (e :: l) cat = if e.category = cat then e.amount + sumCat l cat else sumCat l cat := by
  by_cases h : e.category = cat
  · simp [sumCat, List.filter_cons, h]
  · simp [sumCat, List.filter_cons, h]

theorem lookupTotal_cons_pos {hd : Str × ℚ} {c : Str} (tl : List (Str × ℚ))
    (h : (hd.1 == c) = true) : lookupTotal (hd :: tl) c = some hd.2 := by
  unfold lookupTotal
  rw [@List.find?_cons_of_pos _ (fun p => p.1 == c) hd tl h]
  rfl

theorem lookupTotal_cons_neg {hd : Str × ℚ} {c : Str} (tl : List (Str × ℚ))
    (h : ¬(hd.1 == c) = true) : lookupTotal (hd :: tl) c = lookupTotal tl c := by
  unfold lookupTotal
  rw [@List.find?_cons_of_neg _ (fun p => p.1 == c) hd tl h]

theorem lookupTotal_append_zero (m : List (Str × ℚ)) (cat c : Str) :
    lookupTotal (m ++ [(cat, 0)]) c =
      match lookupTotal m c with
      | some v => some v
      | none => if c = cat then some 0 else none := by
  induction m with
  | nil =>
    by_cases hc : c = cat
    · subst hc
      simp [lookupTotal, List.find?]
    · have hb : (cat == c) = false := beq_eq_false_iff_ne.mpr (Ne.symm hc)
      simp [lookupTotal, List.find?, hb, hc]
  | cons hd tl ih =>
    by_cases hh : (hd.1 == c) = true
    · rw [List.cons_append, lookupTotal_cons_pos (tl ++ [(cat, 0)]) hh,
        lookupTotal_cons_pos tl hh]
    · rw [List.cons_append, lookupTotal_cons_neg (tl ++ [(cat, 0)]) hh,
        lookupTotal_cons_neg tl hh, ih]

theorem lookupTotal_bump (m : List (Str × ℚ)) (cat c : Str) (amt : ℚ) :
    lookupTotal (m.map (fun p => if p.1 = cat then (p.1, p.2 + amt) else p)) c =
      (lookupTotal m c).map (fun v => if c = cat then v + amt else v) := by
  induction m with
  | nil => rfl
  | cons hd tl ih =>
    by_cases hcat : hd.1 = cat
    · by_cases hh : (hd.1 == c) = true
      · have hc : c = cat := by
          rw [← (beq_iff_eq.mp hh)]
          exact hcat
        have hh2 : (((hd.1, hd.2 + amt) : Str × ℚ).1 == c) = true := hh
        simp only [List.map_cons, if_pos hcat]
        rw [lookupTotal_cons_pos _ hh2, lookupTotal_cons_pos tl hh]
        simp [hc]
      · have hh2 : ¬((((hd.1, hd.2 + amt) : Str × ℚ).1 == c) = true) := hh
        simp only [List.map_cons, if_pos hcat]
        rw [lookupTotal_cons_neg _ hh2, lookupTotal_cons_neg tl hh, ih]
    · by_cases hh : (hd.1 == c) = true
      · have hc : ¬(c = cat) := by
          rw [← (beq_iff_eq.mp hh)]
          exact hcat
        simp only [List.map_cons, if_neg hcat]
        rw [lookupTotal_cons_pos _ hh, lookupTotal_cons_pos tl hh]
        simp [hc]
      · simp only [List.map_cons, if_neg hcat]
        rw [lookupTotal_cons_neg _ hh, lookupTotal_cons_neg tl hh, ih]

theorem any_key_eq_lookup (m : List (Str × ℚ)) (cat : Str) :
    m.any (fun p => p.1 == cat) = (lookupTotal m cat).isSome := by
  induction m with
  | nil => rfl
  | cons hd tl ih =>
    by_cases hh : (hd.1 == cat) = true
    · rw [List.any_cons, hh, lookupTotal_cons_pos tl hh]
      rfl
    · have hf : (hd.1 == cat) = false := Bool.eq_false_iff.mpr hh
      rw [List.any_cons, hf, Bool.false_or, lookupTotal_cons_neg tl hh, ih]

theorem mem_keys_iff_isSome (m : List (Str × ℚ)) (cat : Str) :
    cat ∈ m.map Prod.fst ↔ (lookupTotal m cat).isSome = true := by
  induction m with
  | nil => simp [lookupTotal, List.find?]
  | cons hd tl ih =>
    by_cases hh : (hd.1 == cat) = true
    · rw [List.map_cons, lookupTotal_cons_pos tl hh]
      simp [List.mem_cons, beq_iff_eq.mp hh]
    · have hne : ¬(hd.1 = cat) := fun h => hh (beq_iff_eq.mpr h)
      rw [List.map_cons, lookupTotal_cons_neg tl hh]
      simp only [List.mem_cons]
      constructor
      · intro h
        rcases h with h | h
        · exact absurd h.symm hne
        · exact ih.mp h
      · intro h
        exact Or.inr (ih.mpr h)

theorem lookupTotal_addToCategory (m : List (Str × ℚ)) (cat c : Str) (amt : ℚ) :
    lookupTotal (addToCategory m cat amt) c =
      if c = cat then some ((lookupTotal m cat).getD 0 + amt)
      else lookupTotal m c := by
  unfold addToCategory
  rw [any_key_eq_lookup]
  by_cases hsome : (lookupTotal m cat).isSome = true
  · rw [if_pos hsome, lookupTotal_bump]
    by_cases hc : c = cat
    · subst hc
      obtain ⟨v, hv⟩ := Option.isSome_iff_exists.mp hsome
      simp [hv]
    · simp [hc]
  · rw [if_neg hsome, lookupTotal_bump, lookupTotal_append_zero]
    have hnone : lookupTotal m cat = none := Option.not_isSome_iff_eq_none.mp hsome
    by_cases hc : c = cat
    · subst hc
      rw [hnone]
      simp
    · cases hmc : lookupTotal m c with
      | some v => simp [hc, hmc]
      | none => simp [hc, hmc]

theorem lookupTotal_fold (l : List Expense) (m : List (Str × ℚ)) (cat : Str) :
    lookupTotal (l.foldl (fun t e => addToCategory t e.category e.amount) m) cat =
      match lookupTotal m cat with
      | some v => some (v + sumCat l cat)
      | none => if cat ∈ l.map Expense.category then some (sumCat l cat) else none := by
  induction l generalizing m with
  | nil =>
    cases hm : lookupTotal m cat with
    | some v => simp [sumCat, hm]
    | none => simp [sumCat, hm]
  | cons e l ih =>
    rw [List.foldl_cons, ih, lookupTotal_addToCategory, sumCat_cons]
    by_cases hc : cat = e.category
    · rw [if_pos hc, if_pos (show e.category = cat from hc.symm), ← hc]
      cases hm : lookupTotal m cat with
      | some v => simp [add_assoc]
      | none =>
        simp
        exact Or.inl hc
    · rw [if_neg hc, if_neg (show ¬(e.category = cat) from fun h => hc h.symm)]
      cases hm : lookupTotal m cat with
      | some v => rfl
      | none =>
        have hiff : (cat ∈ List.map Expense.category (e :: l)) =
            (cat ∈ List.map Expense.category l) := by
          rw [List.map_cons]
          apply propext
          rw [List.mem_cons]
          constructor
          · intro h
            rcases h with h | h
            · exact absurd h hc
            · exact h
          · exact Or.inr
        simp only [hiff]

theorem keys_addToCategory (m : List (Str × ℚ)) (cat : Str) (amt : ℚ) :
    (addToCategory m cat amt).map Prod.fst =
      if (lookupTotal m cat).isSome then m.map Prod.fst else m.map Prod.fst ++ [cat] := by
  unfold addToCategory
  rw [any_key_eq_lookup]
  by_cases h : (lookupTotal m cat).isSome = true
  · rw [if_pos h, if_pos h, List.map_map]
    refine List.map_congr_left ?_
    intro p _
    by_cases hp : p.1 = cat <;> simp [hp]
  · rw [if_neg h, if_neg h, List.map_map, List.map_append]
    have h2 : ∀ q : List (Str × ℚ), q.map (Prod.fst ∘ fun p => if p.1 = cat then (p.1, p.2 + amt) else p) = q.map Prod.fst := by
      intro q
      refine List.map_congr_left ?_
      intro p _
      by_cases hp : p.1 = cat <;> simp [hp]
    rw [h2, h2]
    rfl

theorem keys_nodup_fold (l : List Expense) (m : List (Str × ℚ))
    (h : (m.map Prod.fst).Nodup) :
    ((l.foldl (fun t e => addToCategory t e.category e.amount) m).map Prod.fst).Nodup := by
  induction l generalizing m with
  | nil => exact h
  | cons e l ih =>
    rw [List.foldl_cons]
    refine ih _ ?_
    rw [keys_addToCategory]
    by_cases hs : (lookupTotal m e.category).isSome = true
    · rw [if_pos hs]
      exact h
    · rw [if_neg hs]
      rw [List.nodup_append]
      refine ⟨h, List.nodup_singleton _, ?_⟩
      intro x hx hx1
      rw [List.mem_singleton] at hx1
      subst hx1
      exact hs ((mem_keys_iff_isSome m e.category).mp hx)

theorem foldl_add_amounts (l : List Expense) (a : ℚ) :
    l.foldl (fun acc e => acc + e.amount) a = a + (l.map Expense.amount).sum := by
  induction l generalizing a with
  | nil => simp
  | cons e t ih => simp [List.foldl_cons, ih, add_assoc]

/- ### Store mutation lemmas -/

theorem filter_ne_of_not_mem (l : List Expense) (i : Str) (h : i ∉ l.map Expense.id) :
    l.filter (fun e => e.id != i) = l := by
  induction l with
  | nil => rfl
  | cons e t ih =>
    rw [List.map_cons, List.mem_cons] at h
    push_neg at h
    have hc : (e.id != i) = true := bne_iff_ne.mpr (fun he => h.1 he.symm)
    rw [List.filter_cons, if_pos hc, ih h.2]

theorem filter_ne_decomp (l : List Expense) (i : Str)
    (hnd : (l.map Expense.id).Nodup) (hmem : i ∈ l.map Expense.id) :
    ∃ l1 x l2, l = l1 ++ x :: l2 ∧ x.id = i ∧
      l.filter (fun e => e.id != i) = l1 ++ l2 ∧
      (l.filter (fun e => e.id != i)).length + 1 = l.length := by
  induction l with
  | nil => simp at hmem
  | cons e t ih =>
    rw [List.map_cons, List.nodup_cons] at hnd
    rw [List.map_cons, List.mem_cons] at hmem
    by_cases he : i = e.id
    · have hnt : i ∉ t.map Expense.id := by
        rw [he]
        exact hnd.1
      have hpe : (e.id != i) = false := by
        rw [he]
        simp
      refine ⟨[], e, t, by simp, he.symm, ?_, ?_⟩
      · rw [List.filter_cons, if_neg (by simp [hpe]), filter_ne_of_not_mem t i hnt]
        rfl
      · rw [List.filter_cons, if_neg (by simp [hpe]), filter_ne_of_not_mem t i hnt]
        rfl
    · have hmem2 : i ∈ t.map Expense.id := by
        rcases hmem with h | h
        · exact absurd h he
        · exact h
      obtain ⟨l1, x, l2, hdec, hxi, hfil, hlen⟩ := ih hnd.2 hmem2
      have hpe : (e.id != i) = true := bne_iff_ne.mpr (fun h2 => he h2.symm)
      refine ⟨e :: l1, x, l2, by rw [hdec]; rfl, hxi, ?_, ?_⟩
      · rw [List.filter_cons, if_pos hpe, hfil]
        rfl
      · rw [List.filter_cons, if_pos hpe]
        simp only [List.length_cons]
        omega

theorem delete_expense_absent (l : List Expense) (i : Str) (h : i ∉ l.map Expense.id) :
    delete_expense l i = (false, l, false) := by
  unfold delete_expense
  rw [filter_ne_of_not_mem l i h, if_pos rfl]

theorem delete_expense_present (l : List Expense) (i : Str)
    (hnd : (l.map Expense.id).Nodup) (hmem : i ∈ l.map Expense.id) :
    ∃ l1 x l2, l = l1 ++ x :: l2 ∧ x.id = i ∧
      delete_expense l i = (true, l1 ++ l2, true) := by
  obtain ⟨l1, x, l2, hdec, hxi, hfil, hlen⟩ := filter_ne_decomp l i hnd hmem
  refine ⟨l1, x, l2, hdec, hxi, ?_⟩
  unfold delete_expense
  rw [hfil] at hlen ⊢
  rw [if_neg (by omega)]

theorem get_expense_by_id_some {l : List Expense} {i : Str} {e : Expense}
    (h : get_expense_by_id l i = some e) : e.id = i := by
  unfold get_expense_by_id at h
  exact beq_iff_eq.mp (@List.find?_some _ (fun e2 : Expense => e2.id == i) _ _ h)

theorem replaceFirst_decomp (l : List Expense) (i : Str) (u existing : Expense)
    (hfind : get_expense_by_id l i = some existing) :
    ∃ l1 l2, l = l1 ++ existing :: l2 ∧ existing.id = i ∧
      replaceFirst l i u = (l1 ++ u :: l2, true) := by
  induction l with
  | nil => cases hfind
  | cons e t ih =>
    by_cases he : e.id = i
    · have heq : existing = e := by
        unfold get_expense_by_id at hfind
        rw [@List.find?_cons_of_pos _ (fun e2 => e2.id == i) e t (beq_iff_eq.mpr he)] at hfind
        cases hfind
        rfl
      subst heq
      refine ⟨[], t, by simp, he, ?_⟩
      unfold replaceFirst
      rw [if_pos he]
      rfl
    · have hfind2 : get_expense_by_id t i = some existing := by
        unfold get_expense_by_id at hfind ⊢
        rwa [@List.find?_cons_of_neg _ (fun e2 => e2.id == i) e t (by simp [he])] at hfind
      obtain ⟨l1, l2, hdec, hid, hrep⟩ := ih hfind2
      refine ⟨e :: l1, l2, by rw [hdec]; rfl, hid, ?_⟩
      unfold replaceFirst
      rw [if_neg he, hrep]
      rfl

/- ### Spec-side definitions for refinement comparison -/

/-- Modelled from the spec: a strict `YYYY-MM-DD` calendar date — three
dash-separated digit groups of widths exactly 4, 2, 2, with year at
least 1, month 1..12 and a day that fits the month. -/
def specIsISODate (s : Str) : Bool :=
  match s.splitOn '-' with
  | [ys, ms, ds] =>
    ys.length == 4 && ys.all Char.isDigit &&
    ms.length == 2 && ms.all Char.isDigit &&
    ds.length == 2 && ds.all Char.isDigit &&
    decide (1 ≤ digitsVal ys) &&
    decide (1 ≤ digitsVal ms) && decide (digitsVal ms ≤ 12) &&
    decide (1 ≤ digitsVal ds) &&
    decide (digitsVal ds ≤ daysInMonth (digitsVal ys) (digitsVal ms))
  | _ => false

/- ### Concrete sample data for witnesses and counterexamples -/

def sampleToken : Str := "123456".data

def sampleDate : Str := "2024-03-05".data

def lenientDate : Str := "2024-1-5".data

def spaceDayDate : Str := "2024-1- 5".data

def badDate : Str := "2024-13-05".data

def rawCategory : Str := "  Food ".data

def blankCategory : Str := "  ".data

def foodCat : Str := "food".data

def transportCat : Str := "transport".data

def sampleNote : Str := "lunch".data

def monthPrefix : Str := "2024-03".data

def idA : Str := "EXP-20240305-000001".data

def idB : Str := "EXP-20240305-000002".data

def idMissing : Str := "EXP-00000000-000000".data

def exA : Expense := ⟨idA, sampleDate, foodCat, 10, [], defaultCurrency⟩

def exB : Expense := ⟨idB, sampleDate, transportCat, 5, [], defaultCurrency⟩

/-- A second record carrying the same id as `exA` (the store never
enforces id uniqueness when loading or appending). -/
def exDup : Expense := ⟨idA, sampleDate, transportCat, 5, [], defaultCurrency⟩

def exANoted : Expense := ⟨idA, sampleDate, foodCat, 10, sampleNote, defaultCurrency⟩

def exARec : ExpenseRec := ⟨idA, sampleDate, foodCat, PyFloat.num 10, [], defaultCurrency⟩

def priorDoc : Str := "old document".data

def newDoc : Str := "new document".data

def emptyCategoryFilter : Filters := ⟨none, none, none, some [], none, none⟩

def monthOnlyFilter : Filters := ⟨some monthPrefix, none, none, none, none, none⟩

/- ### Claim theorems -/

/-- C1 counterexample: the constructor accepts the dates "2024-1-5"
and "2024-1- 5" — both satisfy strptime's %Y-%m-%d pattern — and
stores them unchanged although neither is a zero-padded YYYY-MM-DD
string; and it accepts a NaN amount, for which amount > 0 is false,
because NaN passes the `amount <= 0` test. -/
theorem C1_counterexample :
    (∃ e, mkExpenseRec lenientDate rawCategory (AmountInput.num 10) [] defaultCurrency
        none sampleToken = Except.ok e ∧ e.date = lenientDate) ∧
    specIsISODate lenientDate = false ∧
    (∃ e, mkExpenseRec spaceDayDate rawCategory (AmountInput.num 10) [] defaultCurrency
        none sampleToken = Except.ok e ∧ e.date = spaceDayDate) ∧
    specIsISODate spaceDayDate = false ∧
    (∃ e, mkExpenseRec sampleDate rawCategory AmountInput.nan [] defaultCurrency
        none sampleToken = Except.ok e ∧ e.amount = PyFloat.nan ∧
        pyGtZero e.amount = false) :=
  ⟨⟨_, rfl, rfl⟩, rfl, ⟨_, rfl, rfl⟩, rfl, ⟨_, rfl, rfl, rfl⟩⟩

/-- C1 (amended): construction validates date first, then category,
then amount, raising the matching message on the first failing rule
(conversion failure, then the non-positive test, which only finite
non-positive values fail); on success the expense has a non-empty
category equal to its own trimmed lowercase form, a date accepted by
strptime("%Y-%m-%d") — a real calendar date with a 4-digit year, a
1-2-digit month, and a day of 1-2 digits or a space followed by a
non-zero digit, so not necessarily a strict YYYY-MM-DD string — and an
amount that is either a finite value > 0 or NaN: NaN passes the
`amount <= 0` check, so amount > 0 is not guaranteed. -/
theorem C1_construction_validates (date category : Str) (amount : AmountInput)
    (note currency : Str) (expense_id : Option Str) (timeToken : Str) :
    (isValidStrptimeDate date = false →
      mkExpenseRec date category amount note currency expense_id timeToken
        = Except.error msg_bad_date) ∧
    (isValidStrptimeDate date = true → pyStrip category = [] →
      mkExpenseRec date category amount note currency expense_id timeToken
        = Except.error msg_empty_category) ∧
    (isValidStrptimeDate date = true → pyStrip category ≠ [] →
      amount = AmountInput.nonNumeric →
      mkExpenseRec date category amount note currency expense_id timeToken
        = Except.error msg_amount_numeric) ∧
    (isValidStrptimeDate date = true → pyStrip category ≠ [] →
      ∀ q : ℚ, amount = AmountInput.num q → q ≤ 0 →
      mkExpenseRec date category amount note currency expense_id timeToken
        = Except.error msg_amount_positive) ∧
    (isValidStrptimeDate date = true → pyStrip category ≠ [] →
      amount = AmountInput.nan →
      ∃ e : ExpenseRec,
        mkExpenseRec date category amount note currency expense_id timeToken
          = Except.ok e ∧ e.amount = PyFloat.nan) ∧
    (∀ e : ExpenseRec,
      mkExpenseRec date category amount note currency expense_id timeToken = Except.ok e →
      (pyGtZero e.amount = true ∨ e.amount = PyFloat.nan) ∧
      e.category = pyStrip (pyLower e.category) ∧ e.category ≠ [] ∧
      isValidStrptimeDate e.date = true) := by
  refine ⟨?_, ?_, ?_, ?_, ?_, ?_⟩
  · intro h
    unfold mkExpenseRec validate_date
    rw [if_neg (by simp [h])]
  · intro h hc
    unfold mkExpenseRec validate_date validate_category
    rw [if_pos h, if_pos hc]
  · intro h hc ha
    subst ha
    unfold mkExpenseRec validate_date validate_category validate_amount_float
    rw [if_pos h, if_neg hc]
  · intro h hc q ha hq
    subst ha
    unfold mkExpenseRec validate_date validate_category validate_amount_float
    rw [if_pos h, if_neg hc]
    dsimp only
    rw [if_pos (by simp [pyLeZero, hq])]
  · intro h hc ha
    subst ha
    unfold mkExpenseRec validate_date validate_category validate_amount_float
    rw [if_pos h, if_neg hc]
    dsimp only
    rw [if_neg (by decide)]
    exact ⟨_, rfl, rfl⟩
  · intro e h
    obtain ⟨h1, h2, h3, h4, h5, h6, h7, h8⟩ := mkExpenseRec_ok_inv h
    have hfix := normalized_category_fixed category
    refine ⟨?_, ?_, ?_, ?_⟩
    · rcases h5 with ⟨q, hq1, hq2, hq3⟩ | ⟨ha1, ha2⟩
      · refine Or.inl ?_
        rw [hq2]
        simp [pyGtZero, hq3]
      · exact Or.inr ha2
    · rw [h3, hfix.2, hfix.1]
    · intro hnil
      rw [h3] at hnil
      exact h4 (by simpa [pyLower] using hnil)
    · rw [h1]
      exact h2

/-- C1 witness: the four rejection branches, the NaN acceptance, and
the success postcondition, each at a concrete input. -/
theorem C1_construction_validates_witness :
    mkExpenseRec badDate rawCategory (AmountInput.num 10) [] defaultCurrency none sampleToken
      = Except.error msg_bad_date ∧
    mkExpenseRec sampleDate blankCategory (AmountInput.num 10) [] defaultCurrency none
      sampleToken = Except.error msg_empty_category ∧
    mkExpenseRec sampleDate rawCategory AmountInput.nonNumeric [] defaultCurrency none
      sampleToken = Except.error msg_amount_numeric ∧
    mkExpenseRec sampleDate rawCategory (AmountInput.num 0) [] defaultCurrency none
      sampleToken = Except.error msg_amount_positive ∧
    (∃ e : ExpenseRec, mkExpenseRec sampleDate rawCategory AmountInput.nan [] defaultCurrency
      none sampleToken = Except.ok e ∧ e.amount = PyFloat.nan) ∧
    (pyGtZero exARec.amount = true ∨ exARec.amount = PyFloat.nan) :=
  ⟨(C1_construction_validates badDate rawCategory (AmountInput.num 10) [] defaultCurrency
      none sampleToken).1 (by decide),
   (C1_construction_validates sampleDate blankCategory (AmountInput.num 10) [] defaultCurrency
      none sampleToken).2.1 (by decide) (by decide),
   (C1_construction_validates sampleDate rawCategory AmountInput.nonNumeric [] defaultCurrency
      none sampleToken).2.2.1 (by decide) (by decide) rfl,
   (C1_construction_validates sampleDate rawCategory (AmountInput.num 0) [] defaultCurrency
      none sampleToken).2.2.2.1 (by decide) (by decide) 0 rfl le_rfl,
   (C1_construction_validates sampleDate rawCategory AmountInput.nan [] defaultCurrency
      none sampleToken).2.2.2.2.1 (by decide) (by decide) rfl,
   ((C1_construction_validates sampleDate rawCategory (AmountInput.num 10) [] defaultCurrency
      (some idA) sampleToken).2.2.2.2.2 exARec rfl).1⟩

/-- C2 counterexample: a rewrite that fails after `open` has truncated
the file leaves neither the prior content nor the full new document —
the operation fails and the prior file content is lost. -/
theorem C2_counterexample :
    (write_data priorDoc newDoc (some (WriteFailure.afterOpen 1))).2 = false ∧
    (write_data priorDoc newDoc (some (WriteFailure.afterOpen 1))).1 ≠ priorDoc ∧
    (write_data priorDoc newDoc (some (WriteFailure.afterOpen 1))).1 ≠ newDoc := by
  refine ⟨rfl, ?_, ?_⟩ <;> decide

/-- C2 (amended): `_write_data` is not all-or-nothing. On success the
file holds exactly the new document; on failure the prior content
survives only when the failure hit `open` itself — otherwise the file
holds a truncated prefix of the new document, because `open(path, "w")`
truncates before the content is written. -/
theorem C2_write_not_atomic (prior doc : Str) (fb : Option WriteFailure) :
    ((write_data prior doc fb).2 = true → (write_data prior doc fb).1 = doc) ∧
    ((write_data prior doc fb).2 = false →
      (write_data prior doc fb).1 = prior ∨
        ∃ k, (write_data prior doc fb).1 = List.take k doc) := by
  cases fb with
  | none => exact ⟨fun _ => rfl, fun h => by simp [write_data] at h⟩
  | some wf =>
    cases wf with
    | atOpen => exact ⟨fun h => by simp [write_data] at h, fun _ => Or.inl rfl⟩
    | afterOpen k => exact ⟨fun h => by simp [write_data] at h, fun _ => Or.inr ⟨k, rfl⟩⟩

/-- C2 witness: the amended theorem at a successful run and at an
open-failure run. -/
theorem C2_write_not_atomic_witness :
    (write_data priorDoc newDoc none).1 = newDoc ∧
    ((write_data priorDoc newDoc (some WriteFailure.atOpen)).1 = priorDoc ∨
      ∃ k, (write_data priorDoc newDoc (some WriteFailure.atOpen)).1 = List.take k newDoc) :=
  ⟨(C2_write_not_atomic priorDoc newDoc none).1 rfl,
   (C2_write_not_atomic priorDoc newDoc (some WriteFailure.atOpen)).2 rfl⟩

/-- C3 counterexample: with two stored records sharing an id — the
store never enforces uniqueness on load or append — delete removes
both entries, not exactly one. -/
theorem C3_counterexample :
    idA ∈ [exA, exDup].map Expense.id ∧
    delete_expense [exA, exDup] idA = (true, [], true) ∧
    ¬(([] : List Expense).length = [exA, exDup].length - 1) :=
  ⟨by decide, rfl, by decide⟩

/-- C3 (amended): when the stored ids are pairwise distinct (the store
invariant), deleting a present id removes exactly that one entry —
every other entry survives unchanged, in order — returning true with a
rewrite; deleting an absent id returns false with no rewrite and the
list unchanged.  Without the uniqueness hypothesis delete removes all
matching entries. -/
theorem C3_delete_semantics (l : List Expense) (i : Str)
    (hnd : (l.map Expense.id).Nodup) :
    (i ∈ l.map Expense.id →
      ∃ l1 x l2, l = l1 ++ x :: l2 ∧ x.id = i ∧
        delete_expense l i = (true, l1 ++ l2, true)) ∧
    (i ∉ l.map Expense.id → delete_expense l i = (false, l, false)) :=
  ⟨fun hmem => delete_expense_present l i hnd hmem,
   fun h => delete_expense_absent l i h⟩

/-- C3 witness: a present id and an absent id on a two-record store. -/
theorem C3_delete_semantics_witness :
    (∃ l1 x l2, [exA, exB] = l1 ++ x :: l2 ∧ x.id = idA ∧
      delete_expense [exA, exB] idA = (true, l1 ++ l2, true)) ∧
    delete_expense [exA, exB] idMissing = (false, [exA, exB], false) :=
  ⟨(C3_delete_semantics [exA, exB] idA (by decide)).1 (by decide),
   (C3_delete_semantics [exA, exB] idMissing (by decide)).2 (by decide)⟩

/-- C4: in `update_expense` a supplied amount of exactly 0 is falsy, so
the merged record keeps the existing amount whenever the merge
succeeds. -/
theorem C4_zero_amount_kept (existing : Expense) (note category date : Option Str)
    (timeToken : Str) (e : Expense)
    (h : update_merge existing (some 0) note category date timeToken = Except.ok e) :
    e.amount = existing.amount := by
  unfold update_merge at h
  have h5 := (mkExpense_ok_inv h).2.2.2.2.1
  injection h5 with h6
  rw [← h6]
  rfl

/-- C4 witness: updating `exA` with amount 0 and a new note keeps the
amount 10. -/
theorem C4_zero_amount_kept_witness :
    update_merge exA (some 0) (some sampleNote) none none sampleToken
      = Except.ok exANoted ∧
    exANoted.amount = exA.amount :=
  ⟨rfl, C4_zero_amount_kept exA (some sampleNote) none none sampleToken exANoted rfl⟩

/-- C5: serialization round-trips losslessly — for every expense built
by a successful construction, `from_dict (to_dict e)` succeeds (with
any time token, since the stored id is reused) and returns `e` itself,
every field included; in particular re-validating the already
normalized category is idempotent. -/
theorem C5_round_trip (date category : Str) (amount : AmountInput) (note currency : Str)
    (expense_id : Option Str) (timeToken : Str) (e : Expense)
    (h : mkExpense date category amount note currency expense_id timeToken = Except.ok e)
    (timeToken2 : Str) :
    from_dict (to_dict e) timeToken2 = Except.ok e := by
  have hwf := mkExpense_wellFormed h
  unfold from_dict to_dict
  dsimp only
  rw [Option.getD_some, Option.getD_some,
    mkExpense_of_wellFormed e e.note e.currency timeToken2 hwf]

/-- C5 witness: a concretely constructed expense round-trips. -/
theorem C5_round_trip_witness :
    mkExpense sampleDate rawCategory (AmountInput.num 10) [] defaultCurrency (some idA)
      sampleToken = Except.ok exA ∧
    from_dict (to_dict exA) sampleToken = Except.ok exA :=
  ⟨rfl, C5_round_trip sampleDate rawCategory (AmountInput.num 10) [] defaultCurrency
    (some idA) sampleToken exA rfl sampleToken⟩

/-- C6: for each sort field in {date, amount, category} and each
direction, `_sort_expenses` returns a permutation of its input that is
pairwise ordered by the chosen field comparison (ascending by default,
reversed by the descending flag), and the sort is stable in both
directions: two expenses with equal sort keys keep their original
relative order. -/
theorem C6_sort_stable (l : List Expense) (f : SortField) (d : Bool) :
    (sort_expenses l f d).Perm l ∧
    (sort_expenses l f d).Pairwise (fun a b => sortLe f d a b = true) ∧
    (∀ a b : Expense, sortKeyEq f a b → [a, b].Sublist l →
      [a, b].Sublist (sort_expenses l f d)) := by
  unfold sort_expenses
  refine ⟨List.mergeSort_perm l _, ?_, ?_⟩
  · exact @List.sorted_mergeSort Expense (sortLe f d)
      (fun a b c h1 h2 => sortLe_trans f d h1 h2) (sortLe_total f d) l
  · intro a b hkey hsub
    refine @List.sublist_mergeSort Expense (sortLe f d) l
      (fun x y z h1 h2 => sortLe_trans f d h1 h2) (sortLe_total f d) [a, b] ?_ hsub
    rw [List.pairwise_cons]
    refine ⟨?_, List.pairwise_singleton _ _⟩
    intro y hy
    rw [List.mem_singleton] at hy
    subst hy
    exact sortLe_of_sortKeyEq f d hkey

/-- C6 witness: two records with the same date keep their relative
order under a descending date sort. -/
theorem C6_sort_stable_witness :
    ([exA, exDup] : List Expense).Sublist (sort_expenses [exA, exDup] SortField.date true) :=
  (C6_sort_stable [exA, exDup] SortField.date true).2.2 exA exDup rfl (List.Sublist.refl _)

/-- C7 counterexample: a supplied empty-string category filter is
treated as omitted by the code (Python falsiness), so the result is
not the set of expenses satisfying the supplied case-insensitive
equality predicate — no expense satisfies equality with "", yet the
whole list is returned. -/
theorem C7_counterexample :
    apply_filters [exA] emptyCategoryFilter = [exA] ∧
    specMatchesFilters emptyCategoryFilter exA = false :=
  ⟨rfl, rfl⟩

/-- C7 (amended): filters compose as the logical AND of the active
filters, where a supplied empty-string month/from/to/category counts
as omitted; the result is one `filter` pass over that conjunction —
pure intersection semantics — so membership is exactly "in the input
and satisfying every active predicate", applying the six stages in the
opposite order gives the same list, and a non-empty month filter alone
selects exactly the date-prefix subset. -/
theorem C7_filters_intersection (l : List Expense) (f : Filters) :
    apply_filters l f = l.filter (matchesActiveFilters f) ∧
    (∀ e, e ∈ apply_filters l f ↔ e ∈ l ∧ matchesActiveFilters f e = true) ∧
    apply_filters_reversed l f = apply_filters l f ∧
    (∀ m : Str, m ≠ [] →
      apply_filters l ⟨some m, none, none, none, none, none⟩
        = l.filter (fun e => List.isPrefixOf m e.date)) := by
  refine ⟨apply_filters_eq_filter l f, ?_, ?_, ?_⟩
  · intro e
    rw [apply_filters_eq_filter, List.mem_filter]
  · rw [apply_filters_reversed_eq_filter, apply_filters_eq_filter]
  · intro m hm
    simp [apply_filters, stageStr, stageAmt, hm]

/-- C7 witness: a non-empty month filter selects exactly the matching
prefix subset of a two-record store. -/
theorem C7_filters_intersection_witness :
    apply_filters [exA, exB] monthOnlyFilter
      = List.filter (fun e => List.isPrefixOf monthPrefix e.date) [exA, exB] :=
  (C7_filters_intersection [exA, exB] monthOnlyFilter).2.2.2 monthPrefix (by decide)

/-- C8: updating only the note of a stored expense leaves date,
category, amount, currency and id pointwise unchanged across the
stored list written back (the found record being well-formed is the
entity invariant every constructed record satisfies). -/
theorem C8_note_only_frame (stored : List Expense) (i n : Str) (timeToken : Str)
    (existing : Expense)
    (hfind : get_expense_by_id stored i = some existing)
    (hwf : existing.WellFormed = true) :
    ∃ newList,
      service_update_expense stored i none (some n) none none timeToken
        = Except.ok (true, newList) ∧
      newList.map Expense.date = stored.map Expense.date ∧
      newList.map Expense.category = stored.map Expense.category ∧
      newList.map Expense.amount = stored.map Expense.amount ∧
      newList.map Expense.currency = stored.map Expense.currency ∧
      newList.map Expense.id = stored.map Expense.id := by
  have hmerge : update_merge existing none (some n) none none timeToken
      = Except.ok ⟨existing.id, existing.date, existing.category, existing.amount, n,
          existing.currency⟩ :=
    mkExpense_of_wellFormed existing n existing.currency timeToken hwf
  obtain ⟨l1, l2, hdec, hid, hrep⟩ :=
    replaceFirst_decomp stored i
      ⟨existing.id, existing.date, existing.category, existing.amount, n, existing.currency⟩
      existing hfind
  refine ⟨l1 ++ ⟨existing.id, existing.date, existing.category, existing.amount, n,
    existing.currency⟩ :: l2, ?_, ?_, ?_, ?_, ?_, ?_⟩
  · unfold service_update_expense storage_update_expense
    rw [hfind]
    dsimp only
    rw [hmerge]
    dsimp only
    rw [hrep]
    rfl
  · rw [hdec]
    simp
  · rw [hdec]
    simp
  · rw [hdec]
    simp
  · rw [hdec]
    simp
  · rw [hdec]
    simp

/-- C8 witness: a one-record store updated with only a note. -/
theorem C8_note_only_frame_witness :
    ∃ newList,
      service_update_expense [exA] idA none (some sampleNote) none none sampleToken
        = Except.ok (true, newList) ∧
      newList.map Expense.date = [exA].map Expense.date ∧
      newList.map Expense.category = [exA].map Expense.category ∧
      newList.map Expense.amount = [exA].map Expense.amount ∧
      newList.map Expense.currency = [exA].map Expense.currency ∧
      newList.map Expense.id = [exA].map Expense.id :=
  C8_note_only_frame [exA] idA sampleNote sampleToken exA rfl (by decide)

/-- C9: `_calculate_summary` returns count equal to the list length,
grand_total equal to the sum of all amounts, and totals_by_category
with pairwise-distinct keys — exactly the categories present — each
mapped to the summed amount of its category. -/
theorem C9_summary_correct (l : List Expense) :
    (calculate_summary l).1 = l.length ∧
    (calculate_summary l).2.1 = (l.map Expense.amount).sum ∧
    ((calculate_summary l).2.2.map Prod.fst).Nodup ∧
    (∀ cat, cat ∈ (calculate_summary l).2.2.map Prod.fst ↔ cat ∈ l.map Expense.category) ∧
    (∀ cat, cat ∈ l.map Expense.category →
      lookupTotal (calculate_summary l).2.2 cat = some (sumCat l cat)) := by
  refine ⟨rfl, ?_, ?_, ?_, ?_⟩
  · unfold calculate_summary
    dsimp only
    rw [foldl_add_amounts, zero_add]
  · exact keys_nodup_fold l [] (by simp)
  · intro cat
    rw [mem_keys_iff_isSome]
    unfold calculate_summary
    dsimp only
    rw [lookupTotal_fold]
    have h0 : lookupTotal ([] : List (Str × ℚ)) cat = none := rfl
    rw [h0]
    by_cases hm : cat ∈ l.map Expense.category
    · simp [hm]
    · simp [hm]
  · intro cat hm
    unfold calculate_summary
    dsimp only
    rw [lookupTotal_fold]
    have h0 : lookupTotal ([] : List (Str × ℚ)) cat = none := rfl
    rw [h0]
    simp [hm]

/-- C9 witness: a food/transport two-record store gives one entry per
category, each holding that category's sum. -/
theorem C9_summary_correct_witness :
    lookupTotal (calculate_summary [exA, exB]).2.2 foodCat
      = some (sumCat [exA, exB] foodCat) ∧
    lookupTotal (calculate_summary [exA, exB]).2.2 transportCat
      = some (sumCat [exA, exB] transportCat) :=
  ⟨(C9_summary_correct [exA, exB]).2.2.2.2 foodCat (by decide),
   (C9_summary_correct [exA, exB]).2.2.2.2 transportCat (by decide)⟩

/-- C10: the falsy-means-absent convention of `update_expense` covers
category and date but not note: a supplied empty-string category or
date keeps the existing value, a supplied empty-string note does
replace the note, and only a `None` note keeps the existing note. -/
theorem C10_falsy_update_fields (existing : Expense) (timeToken : Str)
    (hwf : existing.WellFormed = true) :
    update_merge existing none none (some []) none timeToken = Except.ok existing ∧
    update_merge existing none none none (some []) timeToken = Except.ok existing ∧
    update_merge existing none (some []) none none timeToken
      = Except.ok ⟨existing.id, existing.date, existing.category, existing.amount, [],
          existing.currency⟩ ∧
    update_merge existing none none none none timeToken = Except.ok existing := by
  have h1 := mkExpense_of_wellFormed existing existing.note existing.currency timeToken hwf
  have h2 := mkExpense_of_wellFormed existing [] existing.currency timeToken hwf
  exact ⟨h1, h1, h2, h1⟩

/-- C10 witness: the falsy conventions at a concrete record. -/
theorem C10_falsy_update_fields_witness :
    update_merge exA none none (some []) none sampleToken = Except.ok exA ∧
    update_merge exA none (some []) none none sampleToken
      = Except.ok ⟨exA.id, exA.date, exA.category, exA.amount, [], exA.currency⟩ :=
  ⟨(C10_falsy_update_fields exA sampleToken (by decide)).1,
   (C10_falsy_update_fields exA sampleToken (by decide)).2.2.1⟩

end Tracker
